import Mathlib

/-
  Verification of the lineup-optimizer core of the fantasy-baseball repository
  (src/app.py).  The embedding below translates, from the source:

  * the per-player scoring expression (app.py line 163):
      historical_points = sum(row.get(mapping.get(stat, ''), 0) * coeff
                              for stat, coeff in scoring.items())
  * the slot-assignment optimizer (app.py lines 284-308, function optimize);
  * the surrounding pipeline (roster loop IL branch lines 140-142, the
    hitters/pitchers filters lines 267-268, the slot/eligibility tables
    lines 271-281, the bench/IL bucketing lines 313-320).

  Numeric values (Python floats produced by json/statsapi) are modelled as
  rationals.  Python dicts are modelled as association lists with unique keys
  (insertion order preserved, as in Python 3.7+); dict lookup with a default
  is lookupD below.

  The source solves its 0/1 integer program through pulp + CBC, an exact
  solver.  The solver itself is external to the repository; it is modelled as
  exhaustive search: enumerate every 0/1 valuation of the decision variables
  (every sublist of the variable list), keep the feasible ones, and take one
  of maximal objective value.  When the model is infeasible the source checks
  no status: no variable ever has value 1 and pulp.value(prob.objective)
  yields None, so the extraction loop selects nothing and the total becomes
  0.0 through the expression (pulp.value(prob.objective) or 0.0); this is
  modelled by taking the empty valuation in that case.
-/

namespace FBO

/-- Dictionary lookup with a default value, modelling Python d.get(k, default)
on an association list. -/
def lookupD {α : Type} (l : List (String × α)) (k : String) (d : α) : α :=
  match l with
  | [] => d
  | (k', v) :: rest => if k = k' then v else lookupD rest k d

/-- Dictionary lookup without default, modelling the Python k in d test
together with d[k]. -/
def lookupOpt {α : Type} (l : List (String × α)) (k : String) : Option α :=
  match l with
  | [] => none
  | (k', v) :: rest => if k = k' then some v else lookupOpt rest k

/-- A roster entry / player record, as built by the app: a dict with keys
name, type, positions and (after the scoring loop) points. -/
structure Player where
  name : String
  ptype : String
  positions : List String
  points : ℚ
deriving DecidableEq, Repr

/-- Python set(a) and set(b) have non-empty intersection
(app.py line 291: set(p['positions']) and set(eligible[s])). -/
def overlaps (a b : List String) : Bool :=
  a.any (fun t => decide (t ∈ b))

/-- The positions list of the player at index i (indices produced below are
always in range, so the default is never reached). -/
def posAt (players : List Player) (i : ℕ) : List String :=
  (players[i]?.map Player.positions).getD []

/-- The points of the player at index i. -/
def pointsAt (players : List Player) (i : ℕ) : ℚ :=
  (players[i]?.map Player.points).getD 0

/-- The list of decision variables of the model, app.py lines 289-292:
one binary variable x[(i, s)] for every player index i and slot name s whose
tag sets overlap.  No variable is created for an ineligible pair. -/
def varPairs (players : List Player) (slots : List (String × ℕ))
    (eligible : List (String × List String)) : List (ℕ × String) :=
  (List.range players.length).flatMap (fun i =>
    slots.filterMap (fun sl =>
      if overlaps (posAt players i) (lookupD eligible sl.1 []) then
        some (i, sl.1)
      else none))

/-- A 0/1 valuation of the variables is modelled by the list S of variables
set to 1.  Feasibility, app.py lines 294-297: every slot s is filled by
exactly slots[s] players, and every player index fills at most one slot. -/
def isFeasible (players : List Player) (slots : List (String × ℕ))
    (S : List (ℕ × String)) : Bool :=
  slots.all (fun sl =>
    decide ((S.filter (fun v => decide (v.2 = sl.1))).length = sl.2)) &&
  (List.range players.length).all (fun i =>
    decide ((S.filter (fun v => decide (v.1 = i))).length ≤ 1))

/-- The objective of the model, app.py line 293:
prob += pulp.lpSum(x[(i, s)] * p[points-key] for i, s in x).
The generator expression rebinds i and s, but p is free in it: it resolves to
the loop variable leaked by the variable-creation loop of line 289
(for i, p in enumerate(players)), which after that loop holds the LAST
player.  Every selected variable therefore contributes the same coefficient,
the points of the last player, not the points of the player the variable
names. -/
def objective (players : List Player) (S : List (ℕ × String)) : ℚ :=
  (S.map (fun _ => pointsAt players (players.length - 1))).sum

/-- Left fold selecting an element of maximal f-value (first maximum kept). -/
def pickMax {α : Type} (f : α → ℚ) (a : α) (l : List α) : α :=
  l.foldl (fun acc b => if f acc < f b then b else acc) a

/-- An element of maximal f-value of a list, none when the list is empty. -/
def chooseBest {α : Type} (f : α → ℚ) : List α → Option α
  | [] => none
  | a :: l => some (pickMax f a l)

/-- All feasible 0/1 valuations: sublists of the variable list that satisfy
the constraints. -/
def feasibleSols (players : List Player) (slots : List (String × ℕ))
    (eligible : List (String × List String)) : List (List (ℕ × String)) :=
  (varPairs players slots eligible).sublists.filter
    (fun S => isFeasible players slots S)

/-- The model has at least one feasible valuation. -/
def hasFeasible (players : List Player) (slots : List (String × ℕ))
    (eligible : List (String × List String)) : Bool :=
  !(feasibleSols players slots eligible).isEmpty

/-- The valuation the solver leaves in the variables after prob.solve,
app.py line 298: an optimal feasible valuation when one exists, otherwise
(infeasible model, no status check in the source) no variable has value 1. -/
def chosenSol (players : List Player) (slots : List (String × ℕ))
    (eligible : List (String × List String)) : List (ℕ × String) :=
  (chooseBest (objective players) (feasibleSols players slots eligible)).getD []

/-- Result extraction, app.py lines 299-304: lineup = a dict with one key per
slot, each slot listing the player indices of the variables with value 1 for
that slot (the source appends the rendered string
players[i]['name'] (points), determined by the index i recorded here). -/
def buildLineup (slots : List (String × ℕ)) (S : List (ℕ × String)) :
    List (String × List ℕ) :=
  slots.map (fun sl =>
    (sl.1, (S.filter (fun v => decide (v.2 = sl.1))).map (fun v => v.1)))

/-- Leftover extraction, app.py line 307: the players whose index was never
selected. -/
def leftoverOf (players : List Player) (S : List (ℕ × String)) : List Player :=
  (List.range players.length).filterMap (fun i =>
    if decide (i ∈ S.map Prod.fst) then none else players[i]?)

/-- The optimize function, app.py lines 284-308.  Returns the triple
(lineup, total, leftover).  An empty player list returns the empty dict, 0.0
and the empty leftover (line 285-286).  Otherwise the model is built and
solved; the total is the objective value of the chosen valuation, which also
covers the infeasible case (pulp.value(...) or 0.0 gives 0.0 there, equal to
the objective of the empty valuation). -/
def optimize (players : List Player) (slots : List (String × ℕ))
    (eligible : List (String × List String)) :
    List (String × List ℕ) × ℚ × List Player :=
  if players.isEmpty then ([], 0, players)
  else
    (buildLineup slots (chosenSol players slots eligible),
     objective players (chosenSol players slots eligible),
     leftoverOf players (chosenSol players slots eligible))

/-- The same player list with the points of the player at index j replaced
(name, type and positions unchanged); used to express that an ineligible
player cannot influence the result. -/
def pointsUpdate (players : List Player) (j : ℕ) (q : ℚ) : List Player :=
  match players[j]? with
  | some p => players.set j { p with points := q }
  | none => players

/-- A JSON-ish stat value as served by the stats API: a number or a string
(inningsPitched, for instance, is served as a string). -/
inductive JVal where
  | num (q : ℚ)
  | str (s : String)
deriving DecidableEq, Repr

/-- One term of the generator in app.py line 163:
row.get(mapping.get(stat, ''), 0) * coeff.  A stat missing from the
translation dict looks up the key '' and a key missing from the row defaults
to the int 0.  Multiplying a string value and then adding it into the running
sum raises TypeError in Python, modelled by none. -/
def statTerm (mapping : List (String × String)) (row : List (String × JVal))
    (stat : String) (coeff : ℚ) : Option ℚ :=
  match lookupD row (lookupD mapping stat "") (JVal.num 0) with
  | JVal.num q => some (q * coeff)
  | JVal.str _ => none

/-- The scoring expression of app.py line 163:
sum(row.get(mapping.get(stat, ''), 0) * coeff for stat, coeff in
scoring.items()); evaluates the terms left to right and yields none as soon
as a term is malformed (the TypeError of the Python sum). -/
def historical_points (scoring : List (String × ℚ))
    (mapping : List (String × String)) (row : List (String × JVal)) :
    Option ℚ :=
  match scoring with
  | [] => some 0
  | sc :: rest =>
    match statTerm mapping row sc.1 sc.2 with
    | none => none
    | some t => (historical_points rest mapping row).map (fun ts => t + ts)

/-- Modelled from the spec, section 4.1: for every (stat_name, coefficient)
pair present in the coefficient table, add coefficient times the raw value
when the stat name is present in the raw stats, otherwise contribute zero for
that pair. -/
def score_spec (coefficients : List (String × ℚ))
    (raw_stats : String → Option ℚ) : ℚ :=
  (coefficients.map (fun sc =>
    match raw_stats sc.1 with
    | some v => sc.2 * v
    | none => 0)).sum

/-- The raw-stats mapping as the source actually addresses it: the numeric
row read through the stat-name translation dict (batter_map / pitcher_map in
app.py lines 50-60). -/
def rawStatsView (mapping : List (String × String))
    (row : List (String × ℚ)) : String → Option ℚ :=
  fun stat => lookupOpt row (lookupD mapping stat "")

/-- A fully numeric stat row, embedded into the JSON value type. -/
def toJRow (row : List (String × ℚ)) : List (String × JVal) :=
  row.map (fun r => (r.1, JVal.num r.2))

/-- Slot tables of app.py lines 271-272. -/
def hitter_slots : List (String × ℕ) :=
  [("C", 1), ("1B", 1), ("2B", 1), ("3B", 1), ("SS", 1), ("OF", 3),
    ("UTIL", 2)]

def pitcher_slots : List (String × ℕ) :=
  [("SP", 2), ("RP", 2), ("P", 4)]

def bn_slots : ℕ := 5

def il_slots : ℕ := 4

/-- Eligibility tables of app.py lines 277-281. -/
def hitter_eligible : List (String × List String) :=
  [("C", ["C"]), ("1B", ["1B"]), ("2B", ["2B"]), ("3B", ["3B"]),
    ("SS", ["SS"]), ("OF", ["OF"]),
    ("UTIL", ["C", "1B", "2B", "3B", "SS", "OF", "UTIL"])]

def pitcher_eligible : List (String × List String) :=
  [("SP", ["SP"]), ("RP", ["RP"]), ("P", ["SP", "RP", "P"])]

/-- The roster loop of app.py lines 139-259: a player on the IL gets
points = 0 and the loop continues without any stats lookup (lines 140-142);
every other player gets the points computed by the fetch-and-score block
(lines 144-259), abstracted here as the function score since it depends on
network calls outside the repository. -/
def assignPoints (score : Player → ℚ) (roster : List Player) : List Player :=
  roster.map (fun p =>
    if "IL" ∈ p.positions then { p with points := 0 }
    else { p with points := score p })

/-- app.py line 267. -/
def hittersOf (roster : List Player) : List Player :=
  roster.filter (fun p =>
    decide (p.ptype = "batter") && !(decide ("IL" ∈ p.positions)))

/-- app.py line 268. -/
def pitchersOf (roster : List Player) : List Player :=
  roster.filter (fun p =>
    decide (p.ptype = "pitcher") && !(decide ("IL" ∈ p.positions)))

/-- app.py line 318. -/
def ilPlayersOf (roster : List Player) : List Player :=
  roster.filter (fun p => decide ("IL" ∈ p.positions))

/-- Descending points order, the key of the stable Python sort in app.py
line 314 (sort with key points, reverse True). -/
def pointsGE (a b : Player) : Prop := b.points ≤ a.points

instance : DecidableRel pointsGE :=
  fun a b => inferInstanceAs (Decidable (b.points ≤ a.points))

instance : IsTotal Player pointsGE := ⟨fun a b => le_total b.points a.points⟩

instance : IsTrans Player pointsGE :=
  ⟨fun _ _ _ h1 h2 => le_trans h2 h1⟩

/-- The stable sort of app.py line 314. -/
def sortDesc (l : List Player) : List Player := List.insertionSort pointsGE l

/-- The displayed outcome of the optimization section, app.py lines 310-320.
The source renders each entry as a name-and-points string; the Player records
(bn, unused, il, extraIl) and index lists (lineups) here carry exactly the
data those strings are rendered from. -/
structure Result where
  hitterLineup : List (String × List ℕ)
  hitterPts : ℚ
  hitterLeftover : List Player
  pitcherLineup : List (String × List ℕ)
  pitcherPts : ℚ
  pitcherLeftover : List Player
  bn : List Player
  unused : List Player
  il : List Player
  extraIl : List Player
deriving DecidableEq, Repr

/-- app.py lines 139-142 and 267-320: score the roster, run the optimizer
once per category, sort the combined leftover by points descending, take the
bench and the unused tail, and collect the IL players separately. -/
def pipeline (score : Player → ℚ) (roster : List Player) : Result :=
  let procd := assignPoints score roster
  let h := optimize (hittersOf procd) hitter_slots hitter_eligible
  let pi := optimize (pitchersOf procd) pitcher_slots pitcher_eligible
  let leftover := sortDesc (h.2.2 ++ pi.2.2)
  let ilp := ilPlayersOf procd
  { hitterLineup := h.1
    hitterPts := h.2.1
    hitterLeftover := h.2.2
    pitcherLineup := pi.1
    pitcherPts := pi.2.1
    pitcherLeftover := pi.2.2
    bn := leftover.take bn_slots
    unused := leftover.drop bn_slots
    il := ilp.take il_slots
    extraIl := if il_slots < ilp.length then ilp.drop il_slots else [] }

/-! ### Helper lemmas about the optimizer -/

theorem pickMax_mem {α : Type} (f : α → ℚ) (a : α) (l : List α) :
    pickMax f a l ∈ a :: l := by
  induction l generalizing a with
  | nil => simp [pickMax]
  | cons b t ih =>
    simp only [pickMax, List.foldl_cons]
    by_cases h : f a < f b
    · rw [if_pos h]
      have h2 := ih b
      simp only [pickMax, List.mem_cons] at h2 ⊢
      tauto
    · rw [if_neg h]
      have h2 := ih a
      simp only [pickMax, List.mem_cons] at h2 ⊢
      tauto

theorem pickMax_le {α : Type} (f : α → ℚ) (a : α) (l : List α) :
    ∀ b ∈ a :: l, f b ≤ f (pickMax f a l) := by
  induction l generalizing a with
  | nil =>
    intro b hb
    simp only [List.mem_cons, List.not_mem_nil, or_false] at hb
    subst hb
    simp [pickMax]
  | cons c t ih =>
    intro b hb
    simp only [List.mem_cons] at hb
    simp only [pickMax, List.foldl_cons]
    by_cases h : f a < f c
    · rw [if_pos h]
      have hres := ih c
      simp only [pickMax] at hres
      rcases hb with hb | hb | hb
      · rw [hb]
        exact le_trans (le_of_lt h) (hres c (List.mem_cons_self c t))
      · rw [hb]
        exact hres c (List.mem_cons_self c t)
      · exact hres b (List.mem_cons_of_mem c hb)
    · rw [if_neg h]
      have hres := ih a
      simp only [pickMax] at hres
      rcases hb with hb | hb | hb
      · rw [hb]
        exact hres a (List.mem_cons_self a t)
      · rw [hb]
        exact le_trans (le_of_not_lt h) (hres a (List.mem_cons_self a t))
      · exact hres b (List.mem_cons_of_mem a hb)

theorem chooseBest_mem {α : Type} (f : α → ℚ) (L : List α) (S : α)
    (h : chooseBest f L = some S) : S ∈ L := by
  cases L with
  | nil => simp [chooseBest] at h
  | cons a l =>
    simp only [chooseBest, Option.some.injEq] at h
    subst h
    exact pickMax_mem f a l

theorem chooseBest_le {α : Type} (f : α → ℚ) (L : List α) (S : α)
    (h : chooseBest f L = some S) : ∀ T ∈ L, f T ≤ f S := by
  cases L with
  | nil => simp [chooseBest] at h
  | cons a l =>
    simp only [chooseBest, Option.some.injEq] at h
    subst h
    exact pickMax_le f a l

theorem mem_varPairs {players : List Player} {slots : List (String × ℕ)}
    {eligible : List (String × List String)} {i : ℕ} {s : String} :
    (i, s) ∈ varPairs players slots eligible ↔
      i < players.length ∧ s ∈ slots.map Prod.fst ∧
        overlaps (posAt players i) (lookupD eligible s []) = true := by
  constructor
  · intro h
    simp only [varPairs, List.mem_flatMap, List.mem_range] at h
    obtain ⟨j, hj, hmem⟩ := h
    simp only [List.mem_filterMap] at hmem
    obtain ⟨sl, hsl, hif⟩ := hmem
    by_cases hov : overlaps (posAt players j) (lookupD eligible sl.1 []) = true
    · rw [if_pos hov] at hif
      simp only [Option.some.injEq, Prod.mk.injEq] at hif
      obtain ⟨rfl, rfl⟩ := hif
      exact ⟨hj, List.mem_map_of_mem Prod.fst hsl, hov⟩
    · rw [if_neg hov] at hif
      simp at hif
  · rintro ⟨hi, hs, hov⟩
    simp only [List.mem_map] at hs
    obtain ⟨sl, hsl, rfl⟩ := hs
    simp only [varPairs, List.mem_flatMap, List.mem_range]
    refine ⟨i, hi, ?_⟩
    simp only [List.mem_filterMap]
    exact ⟨sl, hsl, by rw [if_pos hov]⟩

theorem chosenSol_sublist (players : List Player) (slots : List (String × ℕ))
    (eligible : List (String × List String)) :
    (chosenSol players slots eligible).Sublist (varPairs players slots eligible) := by
  unfold chosenSol
  cases h : chooseBest (objective players) (feasibleSols players slots eligible) with
  | none => simp [List.nil_sublist]
  | some S =>
    have hmem := chooseBest_mem _ _ _ h
    simp only [feasibleSols, List.mem_filter, List.mem_sublists] at hmem
    simpa using hmem.1

theorem chosenSol_feasible {players : List Player} {slots : List (String × ℕ)}
    {eligible : List (String × List String)}
    (h : hasFeasible players slots eligible = true) :
    isFeasible players slots (chosenSol players slots eligible) = true := by
  unfold hasFeasible at h
  unfold chosenSol
  cases hc : chooseBest (objective players) (feasibleSols players slots eligible) with
  | none =>
    exfalso
    cases hL : feasibleSols players slots eligible with
    | nil => rw [hL] at h; simp at h
    | cons a l => rw [hL] at hc; simp [chooseBest] at hc
  | some S =>
    have hmem := chooseBest_mem _ _ _ hc
    simp only [feasibleSols, List.mem_filter] at hmem
    simpa using hmem.2

theorem chosenSol_eq_nil {players : List Player} {slots : List (String × ℕ)}
    {eligible : List (String × List String)}
    (h : hasFeasible players slots eligible = false) :
    chosenSol players slots eligible = [] := by
  unfold hasFeasible at h
  unfold chosenSol
  cases hL : feasibleSols players slots eligible with
  | nil => simp [chooseBest]
  | cons a l => rw [hL] at h; simp at h

theorem chosenSol_cases (players : List Player) (slots : List (String × ℕ))
    (eligible : List (String × List String)) :
    chosenSol players slots eligible = [] ∨
      isFeasible players slots (chosenSol players slots eligible) = true := by
  cases h : hasFeasible players slots eligible with
  | false => exact Or.inl (chosenSol_eq_nil h)
  | true => exact Or.inr (chosenSol_feasible h)

theorem isFeasible_slotCount {players : List Player} {slots : List (String × ℕ)}
    {S : List (ℕ × String)} (h : isFeasible players slots S = true)
    {s : String} {req : ℕ} (hm : (s, req) ∈ slots) :
    (S.filter (fun v => decide (v.2 = s))).length = req := by
  unfold isFeasible at h
  rw [Bool.and_eq_true] at h
  have h1 := List.all_eq_true.mp h.1 (s, req) hm
  simpa using h1

theorem isFeasible_playerCount {players : List Player} {slots : List (String × ℕ)}
    {S : List (ℕ × String)} (h : isFeasible players slots S = true)
    {i : ℕ} (hi : i < players.length) :
    (S.filter (fun v => decide (v.1 = i))).length ≤ 1 := by
  unfold isFeasible at h
  rw [Bool.and_eq_true] at h
  have h2 := List.all_eq_true.mp h.2 i (List.mem_range.mpr hi)
  simpa using h2

theorem lookupD_buildLineup {slots : List (String × ℕ)} {s : String} {req : ℕ}
    (hm : (s, req) ∈ slots) (S : List (ℕ × String)) :
    lookupD (buildLineup slots S) s [] =
      (S.filter (fun v => decide (v.2 = s))).map (fun v => v.1) := by
  induction slots with
  | nil => simp at hm
  | cons sl rest ih =>
    simp only [buildLineup, List.map_cons]
    by_cases he : s = sl.1
    · subst he
      simp [lookupD]
    · rw [List.mem_cons] at hm
      rcases hm with hm | hm
      · exact absurd (congrArg Prod.fst hm) he
      · simp only [lookupD, if_neg he]
        exact ih hm

theorem sum_map_ite_not_mem {M : Type} [AddCommMonoid M] (k : String) (a : M)
    (base : String × ℕ → M) :
    ∀ slots : List (String × ℕ), k ∉ slots.map Prod.fst →
      (slots.map (fun sl => if k = sl.1 then a + base sl else base sl)).sum
        = (slots.map base).sum := by
  intro slots hk
  have : ∀ sl ∈ slots, (if k = sl.1 then a + base sl else base sl) = base sl := by
    intro sl hsl
    rw [if_neg]
    intro hke
    exact hk (hke ▸ List.mem_map_of_mem Prod.fst hsl)
  rw [List.map_congr_left this]

theorem sum_map_ite_mem {M : Type} [AddCommMonoid M] (k : String) (a : M)
    (base : String × ℕ → M) :
    ∀ slots : List (String × ℕ), (slots.map Prod.fst).Nodup →
      k ∈ slots.map Prod.fst →
      (slots.map (fun sl => if k = sl.1 then a + base sl else base sl)).sum
        = a + (slots.map base).sum := by
  intro slots
  induction slots with
  | nil => simp
  | cons sl0 rest ih =>
    intro hnd hk
    simp only [List.map_cons, List.nodup_cons] at hnd ⊢
    by_cases he : k = sl0.1
    · rw [if_pos he]
      have hnot : k ∉ rest.map Prod.fst := he ▸ hnd.1
      rw [List.sum_cons, List.sum_cons, sum_map_ite_not_mem k a base rest hnot,
        add_assoc]
    · rw [if_neg he]
      have hk' : k ∈ rest.map Prod.fst := by
        rcases List.mem_cons.mp hk with h | h
        · exact absurd h he
        · exact h
      rw [List.sum_cons, List.sum_cons, ih hnd.2 hk', add_left_comm]

theorem sum_filter_slots {M : Type} [AddCommMonoid M] (g : ℕ × String → M)
    (slots : List (String × ℕ)) :
    ∀ S : List (ℕ × String), (slots.map Prod.fst).Nodup →
      (∀ v ∈ S, v.2 ∈ slots.map Prod.fst) →
      (slots.map (fun sl =>
        ((S.filter (fun v => decide (v.2 = sl.1))).map g).sum)).sum
        = (S.map g).sum := by
  intro S
  induction S with
  | nil => simp
  | cons v T ih =>
    intro hnd hmem
    have hstep : ∀ sl ∈ slots,
        (((v :: T).filter (fun w => decide (w.2 = sl.1))).map g).sum
          = (if v.2 = sl.1 then
              g v + ((T.filter (fun w => decide (w.2 = sl.1))).map g).sum
            else ((T.filter (fun w => decide (w.2 = sl.1))).map g).sum) := by
      intro sl _
      by_cases h : v.2 = sl.1
      · simp [List.filter_cons, h]
      · simp [List.filter_cons, h]
    rw [List.map_congr_left hstep,
      sum_map_ite_mem v.2 (g v)
        (fun sl => ((T.filter (fun w => decide (w.2 = sl.1))).map g).sum)
        slots hnd (hmem v (List.mem_cons_self v T)),
      ih hnd (fun w hw => hmem w (List.mem_cons_of_mem v hw)), List.map_cons,
      List.sum_cons]

theorem sum_flatMap_eq {α M : Type} [AddCommMonoid M] (f : α → List M)
    (l : List α) : (l.flatMap f).sum = (l.map (fun a => (f a).sum)).sum := by
  induction l with
  | nil => simp
  | cons a t ih => simp [List.flatMap_cons, List.sum_append, ih]

theorem count_map_fst (i : ℕ) (L : List (ℕ × String)) :
    List.count i (L.map (fun v => v.1))
      = (L.map (fun v => if v.1 = i then (1 : ℕ) else 0)).sum := by
  induction L with
  | nil => simp
  | cons v T ih =>
    simp only [List.map_cons, List.count_cons, List.sum_cons, ih]
    by_cases h : v.1 = i
    · simp [h, Nat.add_comm]
    · simp [h]

theorem sum_indicator_eq_length_filter (i : ℕ) (S : List (ℕ × String)) :
    (S.map (fun v => if v.1 = i then (1 : ℕ) else 0)).sum
      = (S.filter (fun v => decide (v.1 = i))).length := by
  induction S with
  | nil => simp
  | cons v T ih =>
    by_cases h : v.1 = i
    · simp [List.filter_cons, h, ih, Nat.add_comm]
    · simp [List.filter_cons, h, ih]

/-- Mapping every element to one and summing counts the length. -/
theorem sum_map_one (S : List (ℕ × String)) :
    (S.map (fun _ => (1 : ℕ))).sum = S.length := by
  induction S with
  | nil => rfl
  | cons v T ih => simp [ih, Nat.add_comm]

/-- The objective value of app.py line 293 is the number of selected
variables times the stale coefficient (the points of the last player). -/
theorem objective_eq_nsmul (players : List Player) (S : List (ℕ × String)) :
    objective players S
      = S.length • pointsAt players (players.length - 1) := by
  unfold objective
  induction S with
  | nil => simp
  | cons v T ih =>
    simp only [List.map_cons, List.sum_cons, ih]
    simp
    ring

/-- Valuations of equal size have equal objective value: the stale
coefficient makes the objective depend on the selection only through its
size. -/
theorem objective_congr_length (players : List Player)
    {S T : List (ℕ × String)} (h : S.length = T.length) :
    objective players S = objective players T := by
  rw [objective_eq_nsmul, objective_eq_nsmul, h]

/-- Each player index occurs in the flattened lineup exactly as often as it
occurs in the valuation S. -/
theorem count_lineup_eq_filter (slots : List (String × ℕ))
    (S : List (ℕ × String)) (hnd : (slots.map Prod.fst).Nodup)
    (hmem : ∀ v ∈ S, v.2 ∈ slots.map Prod.fst) (i : ℕ) :
    List.count i ((buildLineup slots S).flatMap (fun sl => sl.2))
      = (S.filter (fun v => decide (v.1 = i))).length := by
  rw [List.count_flatMap]
  unfold buildLineup
  rw [List.map_map]
  have : ((List.count i ∘ fun sl : String × List ℕ => sl.2) ∘
      (fun sl : String × ℕ =>
        (sl.1, (S.filter (fun v => decide (v.2 = sl.1))).map (fun v => v.1))))
      = (fun sl : String × ℕ =>
        ((S.filter (fun v => decide (v.2 = sl.1))).map
          (fun v => if v.1 = i then (1 : ℕ) else 0)).sum) := by
    funext sl
    simp only [Function.comp]
    exact count_map_fst i _
  rw [this, sum_filter_slots (fun v => if v.1 = i then (1 : ℕ) else 0)
    slots S hnd hmem]
  exact sum_indicator_eq_length_filter i S

theorem chosenSol_spec (players : List Player) (slots : List (String × ℕ))
    (eligible : List (String × List String)) :
    ∀ v ∈ chosenSol players slots eligible,
      v.1 < players.length ∧ v.2 ∈ slots.map Prod.fst := by
  intro v hv
  have h := (chosenSol_sublist players slots eligible).subset hv
  have h' : (v.1, v.2) ∈ varPairs players slots eligible := by
    rw [Prod.mk.eta]
    exact h
  have h2 := mem_varPairs.mp h'
  exact ⟨h2.1, h2.2.1⟩

theorem flatten_lineup_nodup_of (players : List Player)
    (slots : List (String × ℕ)) (eligible : List (String × List String))
    (hnd : (slots.map Prod.fst).Nodup) :
    ((buildLineup slots (chosenSol players slots eligible)).flatMap
      (fun sl => sl.2)).Nodup := by
  rw [List.nodup_iff_count_le_one]
  intro i
  rw [count_lineup_eq_filter slots (chosenSol players slots eligible) hnd
    (fun v hv => (chosenSol_spec players slots eligible v hv).2) i]
  rcases chosenSol_cases players slots eligible with h | h
  · rw [h]
    simp
  · by_cases hi : i < players.length
    · exact isFeasible_playerCount h hi
    · have hz : (chosenSol players slots eligible).filter
          (fun v => decide (v.1 = i)) = [] := by
        rw [List.filter_eq_nil_iff]
        intro v hv
        have := (chosenSol_spec players slots eligible v hv).1
        simp only [decide_eq_true_eq]
        intro he
        exact hi (he ▸ this)
      rw [hz]
      simp

/-! ### Claims C1, C2, C3 -/

/-- Claim C1 is false of the program (a bug in the code): the objective of
app.py line 293 carries the stale coefficient of the leaked loop variable p,
so the returned total is the number of filled slots times the points of the
last player, not the sum of the assigned players points.  At the scenario of
spec section 8 (player A with tag C and 10 points, player B with tag 1B and
5 points, slots C:1 and 1B:1) the program assigns both players and returns
total 2 * 5 = 10, while the points of the assigned players sum to 15. -/
theorem C1_stale_objective_total :
    (optimize [⟨"A", "batter", ["C"], 10⟩, ⟨"B", "batter", ["1B"], 5⟩]
        [("C", 1), ("1B", 1)] [("C", ["C"]), ("1B", ["1B"])]).1
      = [("C", [0]), ("1B", [1])]
    ∧ (optimize [⟨"A", "batter", ["C"], 10⟩, ⟨"B", "batter", ["1B"], 5⟩]
        [("C", 1), ("1B", 1)] [("C", ["C"]), ("1B", ["1B"])]).2.1 = 10
    ∧ (((optimize [⟨"A", "batter", ["C"], 10⟩, ⟨"B", "batter", ["1B"], 5⟩]
        [("C", 1), ("1B", 1)] [("C", ["C"]), ("1B", ["1B"])]).1.flatMap
          (fun sl => sl.2.map
            (pointsAt [⟨"A", "batter", ["C"], 10⟩,
              ⟨"B", "batter", ["1B"], 5⟩]))).sum) = 15 := by
  have hS : chosenSol [⟨"A", "batter", ["C"], 10⟩, ⟨"B", "batter", ["1B"], 5⟩]
      [("C", 1), ("1B", 1)] [("C", ["C"]), ("1B", ["1B"])]
      = [(0, "C"), (1, "1B")] := by decide
  have hL : (optimize [⟨"A", "batter", ["C"], 10⟩, ⟨"B", "batter", ["1B"], 5⟩]
      [("C", 1), ("1B", 1)] [("C", ["C"]), ("1B", ["1B"])]).1
      = [("C", [0]), ("1B", [1])] := by decide
  refine ⟨hL, ?_, ?_⟩
  · have h1 : (optimize [⟨"A", "batter", ["C"], 10⟩,
        ⟨"B", "batter", ["1B"], 5⟩] [("C", 1), ("1B", 1)]
        [("C", ["C"]), ("1B", ["1B"])]).2.1
        = objective [⟨"A", "batter", ["C"], 10⟩, ⟨"B", "batter", ["1B"], 5⟩]
            (chosenSol [⟨"A", "batter", ["C"], 10⟩,
              ⟨"B", "batter", ["1B"], 5⟩] [("C", 1), ("1B", 1)]
              [("C", ["C"]), ("1B", ["1B"])]) := rfl
    rw [h1, hS]
    norm_num [objective, pointsAt]
  · rw [hL]
    norm_num [pointsAt]

/-- Claim C2: in the returned assignment each slot of the table holds at most
its required count of players, and exactly the required count whenever the
constraint system admits a feasible valuation at all, which formalises
sufficiency of eligible players after competition from other slots. -/
theorem C2_slot_counts (players : List Player) (slots : List (String × ℕ))
    (eligible : List (String × List String)) (s : String) (req : ℕ)
    (hm : (s, req) ∈ slots) :
    (lookupD (optimize players slots eligible).1 s []).length ≤ req
    ∧ (hasFeasible players slots eligible = true →
        (lookupD (optimize players slots eligible).1 s []).length = req) := by
  unfold optimize
  by_cases hp : players.isEmpty
  · rw [if_pos hp]
    have hplayers : players = [] := List.isEmpty_iff.mp hp
    subst hplayers
    constructor
    · simp [lookupD]
    · intro hf
      have hfe := chosenSol_feasible hf
      have hnil : chosenSol [] slots eligible = [] := by
        have hsub := chosenSol_sublist [] slots eligible
        have hvp : varPairs [] slots eligible = [] := by
          simp [varPairs]
        rw [hvp] at hsub
        exact List.sublist_nil.mp hsub
      rw [hnil] at hfe
      have h0 := isFeasible_slotCount hfe hm
      simp only [List.filter_nil, List.length_nil] at h0
      simp [lookupD, ← h0]
  · rw [if_neg hp]
    rw [lookupD_buildLineup hm, List.length_map]
    rcases chosenSol_cases players slots eligible with h | h
    · rw [h]
      constructor
      · simp
      · intro hf
        have hfe := chosenSol_feasible hf
        rw [h] at hfe
        have h0 := isFeasible_slotCount hfe hm
        simpa using h0
    · have hcount := isFeasible_slotCount h hm
      exact ⟨le_of_eq hcount, fun _ => hcount⟩

/-- Witness for C2: with one C-eligible and one 1B-eligible player the model
is feasible and the C slot is filled to its required count 1. -/
theorem C2_slot_counts_witness :
    (("C", 1) ∈ [("C", 1), ("1B", 1)])
    ∧ ((lookupD (optimize [⟨"A", "batter", ["C"], 10⟩,
          ⟨"B", "batter", ["1B"], 5⟩] [("C", 1), ("1B", 1)]
          [("C", ["C"]), ("1B", ["1B"])]).1 "C" []).length ≤ 1
        ∧ (hasFeasible [⟨"A", "batter", ["C"], 10⟩, ⟨"B", "batter", ["1B"], 5⟩]
            [("C", 1), ("1B", 1)] [("C", ["C"]), ("1B", ["1B"])] = true →
          (lookupD (optimize [⟨"A", "batter", ["C"], 10⟩,
            ⟨"B", "batter", ["1B"], 5⟩] [("C", 1), ("1B", 1)]
            [("C", ["C"]), ("1B", ["1B"])]).1 "C" []).length = 1)) :=
  ⟨by decide,
    C2_slot_counts [⟨"A", "batter", ["C"], 10⟩, ⟨"B", "batter", ["1B"], 5⟩]
      [("C", 1), ("1B", 1)] [("C", ["C"]), ("1B", ["1B"])] "C" 1 (by decide)⟩

/-- Claim C3: no player index appears in more than one slot of the returned
assignment (the flattened list of assigned indices has no duplicate), for any
slot table with distinct slot names. -/
theorem C3_player_at_most_one_slot (players : List Player)
    (slots : List (String × ℕ)) (eligible : List (String × List String))
    (hnd : (slots.map Prod.fst).Nodup) :
    ((optimize players slots eligible).1.flatMap (fun sl => sl.2)).Nodup := by
  unfold optimize
  by_cases hp : players.isEmpty
  · rw [if_pos hp]
    simp
  · rw [if_neg hp]
    exact flatten_lineup_nodup_of players slots eligible hnd

/-- Witness for C3 at a scenario where one player is eligible for two slots:
the flattened assignment is duplicate-free. -/
theorem C3_player_at_most_one_slot_witness :
    (([("C", 1), ("UTIL", 1)].map (Prod.fst (α := String) (β := ℕ))).Nodup)
    ∧ ((optimize [⟨"A", "batter", ["C"], 10⟩]
        [("C", 1), ("UTIL", 1)]
        [("C", ["C"]), ("UTIL", ["C", "1B"])]).1.flatMap
        (fun sl => sl.2)).Nodup :=
  ⟨by decide,
    C3_player_at_most_one_slot [⟨"A", "batter", ["C"], 10⟩]
      [("C", 1), ("UTIL", 1)] [("C", ["C"]), ("UTIL", ["C", "1B"])]
      (by decide)⟩

theorem filterMap_getElem_range {α : Type} (l : List α) :
    (List.range l.length).filterMap (fun i => l[i]?) = l := by
  induction l with
  | nil => simp
  | cons a t ih =>
    rw [List.length_cons, List.range_succ_eq_map, List.filterMap_cons,
      List.filterMap_map]
    simp only [List.getElem?_cons_zero]
    have he : ((fun i => (a :: t)[i]?) ∘ Nat.succ) = (fun i => t[i]?) := by
      funext i
      simp
    rw [he, ih]

theorem leftoverOf_nil (players : List Player) :
    leftoverOf players [] = players := by
  unfold leftoverOf
  have he : ∀ i ∈ List.range players.length,
      (if decide (i ∈ ([] : List (ℕ × String)).map Prod.fst) then none
        else players[i]?) = players[i]? := by
    intro i _
    simp
  rw [List.filterMap_congr he]
  exact filterMap_getElem_range players

/-! ### Claims C4 and C5 -/

/-- Claim C4 counterexample: with an empty player list and slot table OF:3
the source returns the empty dict (app.py line 285-286), so the slot name OF
is not present in the returned assignment, contrary to the claim that every
slot name is present and mapped to an empty list. -/
theorem C4_counterexample :
    optimize [] [("OF", 3)] [("OF", ["OF"])] = ([], 0, [])
    ∧ "OF" ∉ ((optimize [] [("OF", 3)] [("OF", ["OF"])]).1.map Prod.fst) := by
  constructor
  · rfl
  · decide

/-- Claim C4 amended: calling optimize with an empty player list returns the
empty assignment mapping (no slot keys at all), total points 0 and an empty
leftover, and never an error, for every slot table and eligibility table. -/
theorem C4_amended_empty_players (slots : List (String × ℕ))
    (eligible : List (String × List String)) :
    optimize [] slots eligible = ([], 0, []) := by
  simp [optimize]

/-- Claim C5 counterexample: the source checks no solver status (app.py line
298-308), so an infeasible instance (one player not eligible for the single
required slot) returns exactly the same triple as a feasible instance (same
slot with required count 0): the result does not distinguish an optimum from
infeasibility. -/
theorem C5_counterexample :
    optimize [⟨"A", "batter", ["C"], 3⟩] [("1B", 1)] [("1B", ["1B"])]
      = optimize [⟨"A", "batter", ["C"], 3⟩] [("1B", 0)] [("1B", ["1B"])]
    ∧ hasFeasible [⟨"A", "batter", ["C"], 3⟩] [("1B", 1)] [("1B", ["1B"])]
        = false
    ∧ hasFeasible [⟨"A", "batter", ["C"], 3⟩] [("1B", 0)] [("1B", ["1B"])]
        = true := by
  refine ⟨?_, by decide, by decide⟩
  rfl

/-- Claim C5 amended: on an infeasible model the optimizer does not crash; it
returns every slot of the table mapped to an empty list, total 0 and the full
player list as leftover, with no distinguished infeasibility marker in the
result (the same value an all-zero-requirement feasible instance yields). -/
theorem C5_amended_infeasible_result (players : List Player)
    (slots : List (String × ℕ)) (eligible : List (String × List String))
    (hp : players ≠ []) (hf : hasFeasible players slots eligible = false) :
    optimize players slots eligible = (buildLineup slots [], 0, players) := by
  unfold optimize
  rw [if_neg (by simpa [List.isEmpty_iff] using hp), chosenSol_eq_nil hf,
    leftoverOf_nil]
  simp [objective]

/-- Witness for the amended C5 at a concrete infeasible instance. -/
theorem C5_amended_infeasible_result_witness :
    ([(⟨"A", "batter", ["C"], 3⟩ : Player)] ≠ [])
    ∧ hasFeasible [⟨"A", "batter", ["C"], 3⟩] [("1B", 1)] [("1B", ["1B"])]
        = false
    ∧ optimize [⟨"A", "batter", ["C"], 3⟩] [("1B", 1)] [("1B", ["1B"])]
        = (buildLineup [("1B", 1)] [], 0, [⟨"A", "batter", ["C"], 3⟩]) :=
  ⟨by decide, by decide,
    C5_amended_infeasible_result [⟨"A", "batter", ["C"], 3⟩] [("1B", 1)]
      [("1B", ["1B"])] (by decide) (by decide)⟩

/-! ### Claim C8: players eligible for no slot -/

theorem length_pointsUpdate (players : List Player) (j : ℕ) (q : ℚ) :
    (pointsUpdate players j q).length = players.length := by
  unfold pointsUpdate
  cases players[j]? with
  | none => rfl
  | some p => exact List.length_set players j _

theorem posAt_pointsUpdate (players : List Player) (j : ℕ) (q : ℚ) (i : ℕ) :
    posAt (pointsUpdate players j q) i = posAt players i := by
  unfold pointsUpdate
  cases hp : players[j]? with
  | none => rfl
  | some p =>
    unfold posAt
    obtain ⟨hlt, _⟩ := List.getElem?_eq_some_iff.mp hp
    by_cases he : i = j
    · subst he
      rw [List.getElem?_set_self hlt, hp]
      rfl
    · rw [List.getElem?_set_ne (fun h => he h.symm)]

theorem pointsAt_pointsUpdate_ne (players : List Player) (j : ℕ) (q : ℚ)
    (i : ℕ) (hne : i ≠ j) :
    pointsAt (pointsUpdate players j q) i = pointsAt players i := by
  unfold pointsUpdate
  cases hp : players[j]? with
  | none => rfl
  | some p =>
    unfold pointsAt
    rw [List.getElem?_set_ne (fun h => hne h.symm)]

theorem varPairs_pointsUpdate (players : List Player)
    (slots : List (String × ℕ)) (eligible : List (String × List String))
    (j : ℕ) (q : ℚ) :
    varPairs (pointsUpdate players j q) slots eligible
      = varPairs players slots eligible := by
  unfold varPairs
  rw [length_pointsUpdate]
  apply List.flatMap_congr
  intro i _
  rw [posAt_pointsUpdate]

theorem isFeasible_pointsUpdate (players : List Player)
    (slots : List (String × ℕ)) (j : ℕ) (q : ℚ) (S : List (ℕ × String)) :
    isFeasible (pointsUpdate players j q) slots S
      = isFeasible players slots S := by
  unfold isFeasible
  rw [length_pointsUpdate]

theorem feasibleSols_pointsUpdate (players : List Player)
    (slots : List (String × ℕ)) (eligible : List (String × List String))
    (j : ℕ) (q : ℚ) :
    feasibleSols (pointsUpdate players j q) slots eligible
      = feasibleSols players slots eligible := by
  unfold feasibleSols
  rw [varPairs_pointsUpdate]
  apply List.filter_congr
  intro S _
  rw [isFeasible_pointsUpdate]

theorem pickMax_congr {α : Type} (f f' : α → ℚ) (a : α) (l : List α)
    (h : ∀ x, x = a ∨ x ∈ l → f x = f' x) :
    pickMax f a l = pickMax f' a l := by
  induction l generalizing a with
  | nil => simp [pickMax]
  | cons b t ih =>
    simp only [pickMax, List.foldl_cons]
    have ha := h a (Or.inl rfl)
    have hb := h b (Or.inr (List.mem_cons_self b t))
    have hnext : ∀ x, x = (if f a < f b then b else a) ∨ x ∈ t → f x = f' x := by
      intro x hx
      rcases hx with hx | hx
      · by_cases hc : f a < f b
        · rw [if_pos hc] at hx
          exact h x (Or.inr (hx ▸ List.mem_cons_self b t))
        · rw [if_neg hc] at hx
          exact h x (Or.inl hx)
      · exact h x (Or.inr (List.mem_cons_of_mem b hx))
    have hcond : (f a < f b) = (f' a < f' b) := by rw [ha, hb]
    have hsame : (if f a < f b then b else a) = (if f' a < f' b then b else a) := by
      by_cases hc : f a < f b
      · rw [if_pos hc, if_pos (hcond ▸ hc)]
      · rw [if_neg hc, if_neg (hcond ▸ hc)]
    have := ih (if f a < f b then b else a) hnext
    simp only [pickMax] at this
    rw [← hsame]
    exact this

theorem chooseBest_congr {α : Type} (f f' : α → ℚ) (L : List α)
    (h : ∀ x ∈ L, f x = f' x) : chooseBest f L = chooseBest f' L := by
  cases L with
  | nil => rfl
  | cons a l =>
    simp only [chooseBest, Option.some.injEq]
    exact pickMax_congr f f' a l (by
      intro x hx
      rcases hx with hx | hx
      · exact h x (hx ▸ List.mem_cons_self a l)
      · exact h x (List.mem_cons_of_mem a hx))

theorem chosenSol_mem_or_nil (players : List Player)
    (slots : List (String × ℕ)) (eligible : List (String × List String)) :
    chosenSol players slots eligible = [] ∨
      chosenSol players slots eligible
        ∈ feasibleSols players slots eligible := by
  unfold chosenSol
  cases h : chooseBest (objective players) (feasibleSols players slots eligible) with
  | none => exact Or.inl rfl
  | some S => exact Or.inr (by simpa using chooseBest_mem _ _ _ h)

/-- In a list whose head realises the common value of f, the left fold of
pickMax never moves: with a constant objective the solver model keeps the
first feasible valuation. -/
theorem pickMax_of_const {α : Type} (f : α → ℚ) :
    ∀ (l : List α) (a : α), (∀ x ∈ a :: l, f x = f a) → pickMax f a l = a := by
  intro l
  induction l with
  | nil =>
    intro a _
    rfl
  | cons b t ih =>
    intro a h
    simp only [pickMax, List.foldl_cons]
    rw [if_neg]
    · have h2 := ih a (fun x hx => by
        rcases List.mem_cons.mp hx with h' | h'
        · rw [h']
        · exact h x (List.mem_cons_of_mem a (List.mem_cons_of_mem b h')))
      simpa [pickMax] using h2
    · rw [h b (List.mem_cons_of_mem a (List.mem_cons_self b t))]
      exact lt_irrefl _

/-- Every feasible valuation selects exactly the sum of the required counts:
each slot equality constraint contributes its required count and the slots
partition the selection (slot names distinct). -/
theorem feasibleSols_length (players : List Player)
    (slots : List (String × ℕ)) (eligible : List (String × List String))
    (hnd : (slots.map Prod.fst).Nodup) :
    ∀ S ∈ feasibleSols players slots eligible,
      S.length = (slots.map Prod.snd).sum := by
  intro S hS
  have hf' : isFeasible players slots S = true := by
    simpa using (List.mem_filter.mp hS).2
  have hsub : S.Sublist (varPairs players slots eligible) := by
    have := (List.mem_filter.mp hS).1
    simpa using List.mem_sublists.mp this
  have hmem : ∀ v ∈ S, v.2 ∈ slots.map Prod.fst := by
    intro v hv
    have h' : (v.1, v.2) ∈ varPairs players slots eligible := by
      rw [Prod.mk.eta]
      exact hsub.subset hv
    exact (mem_varPairs.mp h').2.1
  have hsum := sum_filter_slots (fun _ => (1 : ℕ)) slots S hnd hmem
  rw [sum_map_one] at hsum
  rw [← hsum]
  apply congrArg List.sum
  apply List.map_congr_left
  intro sl hsl
  rw [sum_map_one]
  exact isFeasible_slotCount hf'
    (show (sl.1, sl.2) ∈ slots by rw [Prod.mk.eta]; exact hsl)

/-- Claim C8 counterexample: the objective coefficient of app.py line 293 is
the stale loop variable, the LAST player; when the ineligible player is last,
its points are the returned total.  Players A (tag C, 5 points) and B (tag X,
7 points) with the single slot C:1: B overlaps no slot and gets no decision
variable (the variable list is just the A variable), yet the returned total
is 7 (the points of B), and updating the points of B to 42 changes the
returned total to 42 — an ineligible player does affect the total. -/
theorem C8_counterexample :
    varPairs [⟨"A", "batter", ["C"], 5⟩, ⟨"B", "batter", ["X"], 7⟩]
      [("C", 1)] [("C", ["C"])] = [(0, "C")]
    ∧ (optimize [⟨"A", "batter", ["C"], 5⟩, ⟨"B", "batter", ["X"], 7⟩]
        [("C", 1)] [("C", ["C"])]).2.1 = 7
    ∧ (optimize (pointsUpdate
          [⟨"A", "batter", ["C"], 5⟩, ⟨"B", "batter", ["X"], 7⟩] 1 42)
        [("C", 1)] [("C", ["C"])]).2.1 = 42 := by
  refine ⟨by decide, ?_, ?_⟩
  · have h1 : (optimize [⟨"A", "batter", ["C"], 5⟩,
        ⟨"B", "batter", ["X"], 7⟩] [("C", 1)] [("C", ["C"])]).2.1
        = objective [⟨"A", "batter", ["C"], 5⟩, ⟨"B", "batter", ["X"], 7⟩]
            (chosenSol [⟨"A", "batter", ["C"], 5⟩, ⟨"B", "batter", ["X"], 7⟩]
              [("C", 1)] [("C", ["C"])]) := rfl
    have h2 : chosenSol [⟨"A", "batter", ["C"], 5⟩, ⟨"B", "batter", ["X"], 7⟩]
        [("C", 1)] [("C", ["C"])] = [(0, "C")] := by decide
    rw [h1, h2]
    norm_num [objective, pointsAt]
  · have h3 : pointsUpdate
        [⟨"A", "batter", ["C"], 5⟩, ⟨"B", "batter", ["X"], 7⟩] 1 42
        = [⟨"A", "batter", ["C"], 5⟩, ⟨"B", "batter", ["X"], 42⟩] := by decide
    rw [h3]
    have h4 : (optimize [⟨"A", "batter", ["C"], 5⟩,
        ⟨"B", "batter", ["X"], 42⟩] [("C", 1)] [("C", ["C"])]).2.1
        = objective [⟨"A", "batter", ["C"], 5⟩, ⟨"B", "batter", ["X"], 42⟩]
            (chosenSol [⟨"A", "batter", ["C"], 5⟩, ⟨"B", "batter", ["X"], 42⟩]
              [("C", 1)] [("C", ["C"])]) := rfl
    have h5 : chosenSol [⟨"A", "batter", ["C"], 5⟩, ⟨"B", "batter", ["X"], 42⟩]
        [("C", 1)] [("C", ["C"])] = [(0, "C")] := by decide
    rw [h4, h5]
    norm_num [objective, pointsAt]

/-- Claim C8 amended: a player whose positions overlap no slot of the table
gets no decision variable, appears in no slot of the returned assignment, is
a member of the returned leftover list, and replacing that players points by
any value q never changes the returned assignment; the returned total is also
unchanged provided the player is not the LAST roster entry — the last entry
is the stale objective coefficient of app.py line 293, and the counterexample
shows the total does change when an ineligible last player is repriced. -/
theorem C8_amended_ineligible_player (players : List Player)
    (slots : List (String × ℕ)) (eligible : List (String × List String))
    (j : ℕ) (pr : Player) (q : ℚ) (hnd : (slots.map Prod.fst).Nodup)
    (hj : players[j]? = some pr)
    (hov : ∀ s ∈ slots.map Prod.fst,
      overlaps pr.positions (lookupD eligible s []) = false) :
    (∀ s, (j, s) ∉ varPairs players slots eligible)
    ∧ (∀ sl ∈ (optimize players slots eligible).1, j ∉ sl.2)
    ∧ pr ∈ (optimize players slots eligible).2.2
    ∧ (optimize (pointsUpdate players j q) slots eligible).1
        = (optimize players slots eligible).1
    ∧ (j ≠ players.length - 1 →
        (optimize (pointsUpdate players j q) slots eligible).2.1
          = (optimize players slots eligible).2.1) := by
  have hpos : posAt players j = pr.positions := by
    unfold posAt
    rw [hj]
    rfl
  have hnotvar : ∀ s, (j, s) ∉ varPairs players slots eligible := by
    intro s hmem
    obtain ⟨_, hkey, hovl⟩ := mem_varPairs.mp hmem
    rw [hpos, hov s hkey] at hovl
    simp at hovl
  have hne : ∀ v ∈ varPairs players slots eligible, v.1 ≠ j := by
    intro v hv he
    apply hnotvar v.2
    rw [← he, Prod.mk.eta]
    exact hv
  have hSne : ∀ v ∈ chosenSol players slots eligible, v.1 ≠ j :=
    fun v hv => hne v ((chosenSol_sublist players slots eligible).subset hv)
  have hlt : j < players.length := (List.getElem?_eq_some_iff.mp hj).1
  have hp : ¬ players.isEmpty = true := by
    intro h
    rw [List.isEmpty_iff.mp h] at hj
    simp at hj
  have hp2 : ¬ (pointsUpdate players j q).isEmpty = true := by
    intro h
    apply hp
    rw [List.isEmpty_iff] at h ⊢
    have := length_pointsUpdate players j q
    rw [h] at this
    exact List.length_eq_zero.mp this.symm
  have hchosen : chosenSol (pointsUpdate players j q) slots eligible
      = chosenSol players slots eligible := by
    unfold chosenSol
    rw [feasibleSols_pointsUpdate]
    cases hL : feasibleSols players slots eligible with
    | nil => rfl
    | cons a l =>
      have hlen := feasibleSols_length players slots eligible hnd
      have hsz : ∀ x ∈ a :: l, x.length = a.length := by
        intro x hx
        rw [hlen x (hL ▸ hx), hlen a (hL ▸ List.mem_cons_self a l)]
      have hc1 : ∀ x ∈ a :: l, objective players x = objective players a :=
        fun x hx => objective_congr_length players (hsz x hx)
      have hc2 : ∀ x ∈ a :: l,
          objective (pointsUpdate players j q) x
            = objective (pointsUpdate players j q) a :=
        fun x hx =>
          objective_congr_length (pointsUpdate players j q) (hsz x hx)
      simp only [chooseBest, Option.getD_some]
      rw [pickMax_of_const (objective (pointsUpdate players j q)) l a hc2,
        pickMax_of_const (objective players) l a hc1]
  refine ⟨hnotvar, ?_, ?_, ?_, ?_⟩
  · intro sl hsl hjmem
    rw [optimize, if_neg hp] at hsl
    unfold buildLineup at hsl
    obtain ⟨sl0, _, rfl⟩ := List.mem_map.mp hsl
    obtain ⟨v, hvf, hvj⟩ := List.mem_map.mp hjmem
    exact hSne v (List.mem_filter.mp hvf).1 hvj
  · rw [optimize, if_neg hp]
    unfold leftoverOf
    apply List.mem_filterMap.mpr
    refine ⟨j, List.mem_range.mpr hlt, ?_⟩
    rw [if_neg, hj]
    intro hd
    rw [decide_eq_true_eq] at hd
    obtain ⟨v, hv, hvj⟩ := List.mem_map.mp hd
    exact hSne v hv hvj
  · rw [optimize, optimize, if_neg hp, if_neg hp2, hchosen]
  · intro hjl
    have hpa : pointsAt (pointsUpdate players j q)
        ((pointsUpdate players j q).length - 1)
        = pointsAt players (players.length - 1) := by
      rw [length_pointsUpdate]
      exact pointsAt_pointsUpdate_ne players j q (players.length - 1)
        (Ne.symm hjl)
    have hobj2 : ∀ S, objective (pointsUpdate players j q) S
        = objective players S := by
      intro S
      rw [objective_eq_nsmul, objective_eq_nsmul, hpa]
    rw [optimize, optimize, if_neg hp, if_neg hp2, hchosen, hobj2]

/-- Witness for the amended C8: the first player has tag X, eligible for no
slot; it is leftover and unassigned, and since it is not the last roster
entry, repricing it to 42 changes neither the assignment nor the total. -/
theorem C8_amended_ineligible_player_witness :
    (([("C", 1)].map (Prod.fst (α := String) (β := ℕ))).Nodup
      ∧ ([⟨"B", "batter", ["X"], 7⟩, ⟨"A", "batter", ["C"], 5⟩]
          : List Player)[0]? = some ⟨"B", "batter", ["X"], 7⟩)
    ∧ ((∀ s, (0, s) ∉ varPairs
          [⟨"B", "batter", ["X"], 7⟩, ⟨"A", "batter", ["C"], 5⟩]
          [("C", 1)] [("C", ["C"])])
      ∧ (∀ sl ∈ (optimize [⟨"B", "batter", ["X"], 7⟩,
            ⟨"A", "batter", ["C"], 5⟩] [("C", 1)] [("C", ["C"])]).1,
          0 ∉ sl.2)
      ∧ (⟨"B", "batter", ["X"], 7⟩ : Player)
          ∈ (optimize [⟨"B", "batter", ["X"], 7⟩, ⟨"A", "batter", ["C"], 5⟩]
              [("C", 1)] [("C", ["C"])]).2.2
      ∧ (optimize (pointsUpdate [⟨"B", "batter", ["X"], 7⟩,
            ⟨"A", "batter", ["C"], 5⟩] 0 42) [("C", 1)] [("C", ["C"])]).1
          = (optimize [⟨"B", "batter", ["X"], 7⟩, ⟨"A", "batter", ["C"], 5⟩]
              [("C", 1)] [("C", ["C"])]).1
      ∧ (0 ≠ ([⟨"B", "batter", ["X"], 7⟩, ⟨"A", "batter", ["C"], 5⟩]
            : List Player).length - 1 →
          (optimize (pointsUpdate [⟨"B", "batter", ["X"], 7⟩,
              ⟨"A", "batter", ["C"], 5⟩] 0 42) [("C", 1)]
              [("C", ["C"])]).2.1
            = (optimize [⟨"B", "batter", ["X"], 7⟩,
                ⟨"A", "batter", ["C"], 5⟩] [("C", 1)] [("C", ["C"])]).2.1)) :=
  ⟨⟨by decide, by decide⟩,
    C8_amended_ineligible_player
      [⟨"B", "batter", ["X"], 7⟩, ⟨"A", "batter", ["C"], 5⟩]
      [("C", 1)] [("C", ["C"])] 0 ⟨"B", "batter", ["X"], 7⟩ 42 (by decide)
      (by decide) (by decide)⟩

/-! ### Claims C6 and C7: the scoring expression of app.py line 163 -/

theorem lookupD_toJRow (row : List (String × ℚ)) (k : String) :
    lookupD (toJRow row) k (JVal.num 0)
      = JVal.num ((lookupOpt row k).getD 0) := by
  induction row with
  | nil => rfl
  | cons r rest ih =>
    unfold toJRow at ih ⊢
    simp only [List.map_cons]
    unfold lookupD lookupOpt
    by_cases h : k = r.1
    · rw [if_pos h, if_pos h]
      rfl
    · rw [if_neg h, if_neg h]
      exact ih

/-- Claim C6: on a numeric stats row the scoring expression never fails and
returns, for every pair of the coefficient table, coefficient times the raw
value when the (translated) stat name is present in the raw stats and exactly
zero when it is absent; this is the spec-side definition score_spec. -/
theorem C6_missing_stat_zero (scoring : List (String × ℚ))
    (mapping : List (String × String)) (row : List (String × ℚ)) :
    historical_points scoring mapping (toJRow row)
      = some (score_spec scoring (rawStatsView mapping row)) := by
  induction scoring with
  | nil => rfl
  | cons sc rest ih =>
    unfold historical_points
    have hterm : statTerm mapping (toJRow row) sc.1 sc.2
        = some (match rawStatsView mapping row sc.1 with
            | some v => sc.2 * v
            | none => 0) := by
      unfold statTerm rawStatsView
      rw [lookupD_toJRow]
      cases h : lookupOpt row (lookupD mapping sc.1 "") with
      | none => simp [h]
      | some v => simp [h, mul_comm]
    rw [hterm, ih]
    unfold score_spec
    simp

/-- Claim C7 amended: a non-numeric value for a stat that the coefficient
table references makes the whole scoring expression raise (modelled none); it
is not treated as zero and well-formed stats in the same row do not rescue
the computation. -/
theorem C7_amended_malformed_aborts (scoring : List (String × ℚ))
    (mapping : List (String × String)) (row : List (String × JVal))
    (stat : String) (coeff : ℚ) (s : String)
    (hmem : (stat, coeff) ∈ scoring)
    (hstr : lookupD row (lookupD mapping stat "") (JVal.num 0)
      = JVal.str s) :
    historical_points scoring mapping row = none := by
  induction scoring with
  | nil => simp at hmem
  | cons sc rest ih =>
    unfold historical_points
    rcases List.mem_cons.mp hmem with h | h
    · have : statTerm mapping row sc.1 sc.2 = none := by
        unfold statTerm
        have h1 : sc.1 = stat := by rw [← h]
        rw [h1, hstr]
      rw [this]
    · cases ht : statTerm mapping row sc.1 sc.2 with
      | none => rfl
      | some t => rw [ih h]; rfl

/-- Claim C7 counterexample: a pitcher row whose inningsPitched is served as
the string 180.2 (as the stats API does) makes the scoring expression of
app.py line 163 raise; the wins stat, although well formed, does not
contribute: the whole computation aborts instead of yielding some 100. -/
theorem C7_counterexample :
    historical_points [("W", 10), ("IP", 3)]
      [("W", "wins"), ("IP", "inningsPitched")]
      [("wins", JVal.num 10), ("inningsPitched", JVal.str "180.2")]
      = none
    ∧ historical_points [("W", 10)]
      [("W", "wins"), ("IP", "inningsPitched")]
      [("wins", JVal.num 10), ("inningsPitched", JVal.str "180.2")]
      ≠ none := by
  constructor
  · rfl
  · decide

/-- Witness for the amended C7 at the same concrete input. -/
theorem C7_amended_malformed_aborts_witness :
    ((("IP", 3) ∈ ([("W", 10), ("IP", 3)] : List (String × ℚ)))
      ∧ lookupD [("wins", JVal.num 10), ("inningsPitched", JVal.str "180.2")]
          (lookupD [("W", "wins"), ("IP", "inningsPitched")] "IP" "")
          (JVal.num 0) = JVal.str "180.2")
    ∧ historical_points [("W", 10), ("IP", 3)]
        [("W", "wins"), ("IP", "inningsPitched")]
        [("wins", JVal.num 10), ("inningsPitched", JVal.str "180.2")]
        = none :=
  ⟨⟨by decide, by decide⟩,
    C7_amended_malformed_aborts [("W", 10), ("IP", 3)]
      [("W", "wins"), ("IP", "inningsPitched")]
      [("wins", JVal.num 10), ("inningsPitched", JVal.str "180.2")]
      "IP" 3 "180.2" (by decide) (by decide)⟩

/-! ### The surrounding pipeline: bench and IL claims -/

theorem optimize_leftover_subset (players : List Player)
    (slots : List (String × ℕ)) (eligible : List (String × List String)) :
    ∀ p ∈ (optimize players slots eligible).2.2, p ∈ players := by
  unfold optimize
  by_cases hp : players.isEmpty
  · rw [if_pos hp]
    exact fun p h => h
  · rw [if_neg hp]
    intro p hmem
    unfold leftoverOf at hmem
    obtain ⟨i, _, hcond⟩ := List.mem_filterMap.mp hmem
    by_cases hd : decide (i ∈ (chosenSol players slots eligible).map Prod.fst)
        = true
    · rw [if_pos hd] at hcond
      simp at hcond
    · rw [if_neg hd] at hcond
      exact List.getElem?_mem hcond

/-- Claim C10: the bench is the first five entries of the combined hitter and
pitcher leftover lists sorted by points in descending order, the unused list
is the rest: bench and unused together are a permutation of the combined
leftovers, every bench entry has at least the points of every unused entry,
and the bench has five entries unless fewer leftovers exist. -/
theorem C10_bench_top5 (score : Player → ℚ) (roster : List Player) :
    List.Perm ((pipeline score roster).bn ++ (pipeline score roster).unused)
      ((pipeline score roster).hitterLeftover
        ++ (pipeline score roster).pitcherLeftover)
    ∧ (∀ b ∈ (pipeline score roster).bn,
        ∀ u ∈ (pipeline score roster).unused, u.points ≤ b.points)
    ∧ (pipeline score roster).bn.length
        = min bn_slots ((pipeline score roster).hitterLeftover
            ++ (pipeline score roster).pitcherLeftover).length := by
  have h1 : (pipeline score roster).bn
      = (sortDesc ((pipeline score roster).hitterLeftover
          ++ (pipeline score roster).pitcherLeftover)).take bn_slots := rfl
  have h2 : (pipeline score roster).unused
      = (sortDesc ((pipeline score roster).hitterLeftover
          ++ (pipeline score roster).pitcherLeftover)).drop bn_slots := rfl
  refine ⟨?_, ?_, ?_⟩
  · rw [h1, h2, List.take_append_drop]
    exact List.perm_insertionSort pointsGE _
  · intro b hb u hu
    rw [h1] at hb
    rw [h2] at hu
    have hs : List.Pairwise pointsGE
        (sortDesc ((pipeline score roster).hitterLeftover
          ++ (pipeline score roster).pitcherLeftover)) :=
      List.sorted_insertionSort pointsGE _
    rw [← List.take_append_drop bn_slots
      (sortDesc ((pipeline score roster).hitterLeftover
        ++ (pipeline score roster).pitcherLeftover))] at hs
    exact (List.pairwise_append.mp hs).2.2 b hb u hu
  · rw [h1, List.length_take]
    unfold sortDesc
    rw [(List.perm_insertionSort pointsGE
      ((pipeline score roster).hitterLeftover
        ++ (pipeline score roster).pitcherLeftover)).length_eq]

/-- Claim C9: a roster player carrying the IL tag gets points 0 assigned
without any stats lookup (the abstract scoring function is never consulted
for it), is excluded from both the hitter and the pitcher player pools so it
can appear in no lineup slot of either run, never reaches the bench, and is
listed in the IL display (il plus extraIl, which together hold exactly the IL
players). -/
theorem C9_il_player (score : Player → ℚ) (roster : List Player) (j : ℕ)
    (pr : Player) (hj : roster[j]? = some pr) (hIL : "IL" ∈ pr.positions) :
    (assignPoints score roster)[j]? = some { pr with points := 0 }
    ∧ (∀ p ∈ hittersOf (assignPoints score roster), "IL" ∉ p.positions)
    ∧ (∀ p ∈ pitchersOf (assignPoints score roster), "IL" ∉ p.positions)
    ∧ (∀ sl ∈ (pipeline score roster).hitterLineup, ∀ i ∈ sl.2, ∀ q,
        (hittersOf (assignPoints score roster))[i]? = some q →
          "IL" ∉ q.positions)
    ∧ (∀ sl ∈ (pipeline score roster).pitcherLineup, ∀ i ∈ sl.2, ∀ q,
        (pitchersOf (assignPoints score roster))[i]? = some q →
          "IL" ∉ q.positions)
    ∧ (∀ b ∈ (pipeline score roster).bn, "IL" ∉ b.positions)
    ∧ ({ pr with points := 0 } : Player)
        ∈ (pipeline score roster).il ++ (pipeline score roster).extraIl := by
  have hmap : (assignPoints score roster)[j]? = some { pr with points := 0 } := by
    unfold assignPoints
    rw [List.getElem?_map, hj]
    simp [hIL]
  have hhit : ∀ p ∈ hittersOf (assignPoints score roster),
      "IL" ∉ p.positions := by
    intro p hp
    have h := (List.mem_filter.mp hp).2
    simp only [Bool.and_eq_true, Bool.not_eq_true', decide_eq_false_iff_not]
      at h
    exact h.2
  have hpit : ∀ p ∈ pitchersOf (assignPoints score roster),
      "IL" ∉ p.positions := by
    intro p hp
    have h := (List.mem_filter.mp hp).2
    simp only [Bool.and_eq_true, Bool.not_eq_true', decide_eq_false_iff_not]
      at h
    exact h.2
  have hil0 : ({ pr with points := 0 } : Player)
      ∈ ilPlayersOf (assignPoints score roster) := by
    apply List.mem_filter.mpr
    refine ⟨List.getElem?_mem hmap, ?_⟩
    simpa using hIL
  refine ⟨hmap, hhit, hpit, ?_, ?_, ?_, ?_⟩
  · intro sl _ i _ q hq
    exact hhit q (List.getElem?_mem hq)
  · intro sl _ i _ q hq
    exact hpit q (List.getElem?_mem hq)
  · intro b hb
    have hbn : (pipeline score roster).bn
        = (sortDesc ((pipeline score roster).hitterLeftover
            ++ (pipeline score roster).pitcherLeftover)).take bn_slots := rfl
    rw [hbn] at hb
    have hb2 := (List.perm_insertionSort pointsGE _).subset
      (List.take_subset _ _ hb)
    rcases List.mem_append.mp hb2 with hb3 | hb3
    · exact hhit b (optimize_leftover_subset _ _ _ b hb3)
    · exact hpit b (optimize_leftover_subset _ _ _ b hb3)
  · have hilf : (pipeline score roster).il
        = (ilPlayersOf (assignPoints score roster)).take il_slots := rfl
    have hexf : (pipeline score roster).extraIl
        = (if il_slots < (ilPlayersOf (assignPoints score roster)).length
            then (ilPlayersOf (assignPoints score roster)).drop il_slots
            else []) := rfl
    rw [hilf, hexf]
    by_cases hlen : il_slots < (ilPlayersOf (assignPoints score roster)).length
    · rw [if_pos hlen, List.take_append_drop]
      exact hil0
    · rw [if_neg hlen, List.append_nil,
        List.take_of_length_le (le_of_not_lt hlen)]
      exact hil0

/-- Witness for C9: a two-player roster whose second player is on the IL. -/
theorem C9_il_player_witness :
    (([⟨"Ann", "batter", ["C"], 0⟩, ⟨"Bob", "batter", ["IL"], 0⟩]
        : List Player)[1]? = some ⟨"Bob", "batter", ["IL"], 0⟩
      ∧ "IL" ∈ (⟨"Bob", "batter", ["IL"], 0⟩ : Player).positions)
    ∧ ((assignPoints (fun _ => 5)
          [⟨"Ann", "batter", ["C"], 0⟩, ⟨"Bob", "batter", ["IL"], 0⟩])[1]?
        = some ⟨"Bob", "batter", ["IL"], 0⟩
      ∧ (∀ p ∈ hittersOf (assignPoints (fun _ => 5)
          [⟨"Ann", "batter", ["C"], 0⟩, ⟨"Bob", "batter", ["IL"], 0⟩]),
          "IL" ∉ p.positions)
      ∧ (∀ p ∈ pitchersOf (assignPoints (fun _ => 5)
          [⟨"Ann", "batter", ["C"], 0⟩, ⟨"Bob", "batter", ["IL"], 0⟩]),
          "IL" ∉ p.positions)
      ∧ (∀ sl ∈ (pipeline (fun _ => 5)
            [⟨"Ann", "batter", ["C"], 0⟩,
              ⟨"Bob", "batter", ["IL"], 0⟩]).hitterLineup,
          ∀ i ∈ sl.2, ∀ q,
          (hittersOf (assignPoints (fun _ => 5)
            [⟨"Ann", "batter", ["C"], 0⟩,
              ⟨"Bob", "batter", ["IL"], 0⟩]))[i]? = some q →
            "IL" ∉ q.positions)
      ∧ (∀ sl ∈ (pipeline (fun _ => 5)
            [⟨"Ann", "batter", ["C"], 0⟩,
              ⟨"Bob", "batter", ["IL"], 0⟩]).pitcherLineup,
          ∀ i ∈ sl.2, ∀ q,
          (pitchersOf (assignPoints (fun _ => 5)
            [⟨"Ann", "batter", ["C"], 0⟩,
              ⟨"Bob", "batter", ["IL"], 0⟩]))[i]? = some q →
            "IL" ∉ q.positions)
      ∧ (∀ b ∈ (pipeline (fun _ => 5)
            [⟨"Ann", "batter", ["C"], 0⟩,
              ⟨"Bob", "batter", ["IL"], 0⟩]).bn,
          "IL" ∉ b.positions)
      ∧ (⟨"Bob", "batter", ["IL"], 0⟩ : Player)
          ∈ (pipeline (fun _ => 5)
              [⟨"Ann", "batter", ["C"], 0⟩,
                ⟨"Bob", "batter", ["IL"], 0⟩]).il
            ++ (pipeline (fun _ => 5)
              [⟨"Ann", "batter", ["C"], 0⟩,
                ⟨"Bob", "batter", ["IL"], 0⟩]).extraIl) :=
  ⟨⟨by decide, by decide⟩,
    C9_il_player (fun _ => 5)
      [⟨"Ann", "batter", ["C"], 0⟩, ⟨"Bob", "batter", ["IL"], 0⟩] 1
      ⟨"Bob", "batter", ["IL"], 0⟩ (by decide) (by decide)⟩

end FBO
